import Mathlib

/-!
Shallow embedding of `sleep.py` (SamuelDonovan/sleep-analyzer).

The program ingests raw sleep-session rows (`Start Time` string,
`Time Asleep(min)` number), assigns each session to a sleep-night date
via a cutoff hour, groups by date summing hours, and derives rolling
statistics and a status color.  Numeric values are modelled as `ℚ`
(pandas arithmetic on these inputs is exact decimal division by 60 and
sums; no claim concerns float rounding), dates as calendar triples,
timestamps as date plus time-of-day.
-/

namespace SleepAnalyzer

/-- `TARGET_SLEEP = 8` (sleep.py line 6). -/
def TARGET_SLEEP : ℚ := 8

/-- A calendar date, as in `datetime.date`. -/
structure Date where
  year : ℤ
  month : ℕ
  day : ℕ
deriving DecidableEq, Repr

instance : Inhabited Date := ⟨⟨0, 1, 1⟩⟩

/-- Gregorian leap-year rule, as in `calendar.isleap` / `datetime`. -/
def isLeapYear (y : ℤ) : Bool :=
  (y % 4 == 0 && y % 100 != 0) || (y % 400 == 0)

/-- Number of days in a month, Gregorian calendar. -/
def daysInMonth (y : ℤ) (m : ℕ) : ℕ :=
  if m = 2 then (if isLeapYear y then 29 else 28)
  else if m = 4 ∨ m = 6 ∨ m = 9 ∨ m = 11 then 30
  else 31

/-- The calendar date one day earlier: the `.date()` of
`bedtime - datetime.timedelta(days=1)` (sleep.py line 25); subtracting
one day from a `datetime` keeps the time of day and moves the calendar
date back by one, with month/year rollover. -/
def prevDate (d : Date) : Date :=
  if 1 < d.day then ⟨d.year, d.month, d.day - 1⟩
  else if 1 < d.month then ⟨d.year, d.month - 1, daysInMonth d.year (d.month - 1)⟩
  else ⟨d.year - 1, 12, 31⟩

/-- A `datetime.datetime`: a calendar date plus time of day. -/
structure Timestamp where
  date : Date
  hour : ℕ
  minute : ℕ
  second : ℕ
deriving DecidableEq, Repr

/-- `assign_sleep_day` (sleep.py lines 24-27): if
`0 <= bedtime.hour < cutoff_hour` the previous calendar date, else the
timestamp's own date.  `cutoff_hour` is an `ℤ` since Python performs no
range validation on it. -/
def assign_sleep_day (bedtime : Timestamp) (cutoff_hour : ℤ) : Date :=
  if 0 ≤ (bedtime.hour : ℤ) ∧ (bedtime.hour : ℤ) < cutoff_hour then
    prevDate bedtime.date
  else
    bedtime.date

/-- Strict calendar order on dates (how `datetime.date` compares, and how
pandas sorts group keys): lexicographic on (year, month, day). -/
def Date.Lt (a b : Date) : Prop :=
  a.year < b.year ∨
    (a.year = b.year ∧ (a.month < b.month ∨ (a.month = b.month ∧ a.day < b.day)))

instance (a b : Date) : Decidable (Date.Lt a b) := by
  unfold Date.Lt
  exact inferInstance

/-- Value of a decimal digit character. -/
def digitVal (c : Char) : Option ℕ :=
  if c.isDigit then some (c.toNat - 48) else none

/-- Two-digit field. -/
def parse2 (a b : Char) : Option ℕ := do
  let x ← digitVal a
  let y ← digitVal b
  pure (10 * x + y)

/-- Four-digit field. -/
def parse4 (a b c d : Char) : Option ℕ := do
  let x ← parse2 a b
  let y ← parse2 c d
  pure (100 * x + y)

/-- Build a validated timestamp from the digit characters of
`YYYY-MM-DD hh:mm:ss`; rejects out-of-range calendar/clock fields as
`pandas.to_datetime` does. -/
def mkTimestampOfDigits (y1 y2 y3 y4 mo1 mo2 d1 d2 h1 h2 mi1 mi2 s1 s2 : Char) :
    Option Timestamp := do
  let y ← parse4 y1 y2 y3 y4
  let mo ← parse2 mo1 mo2
  let d ← parse2 d1 d2
  let h ← parse2 h1 h2
  let mi ← parse2 mi1 mi2
  let s ← parse2 s1 s2
  if 1 ≤ mo ∧ mo ≤ 12 ∧ 1 ≤ d ∧ d ≤ daysInMonth (y : ℤ) mo ∧ h ≤ 23 ∧ mi ≤ 59 ∧ s ≤ 59 then
    pure ⟨⟨(y : ℤ), mo, d⟩, h, mi, s⟩
  else
    none

/-- `pd.to_datetime(·, format="mixed")` restricted to the feed's two
formats (sleep.py lines 56-58: "the seconds field is dropped from the
dataset if zero"): `YYYY-MM-DD hh:mm:ss` or `YYYY-MM-DD hh:mm`, with a
space or `T` between date and time.  Any other string fails to parse. -/
def parseTimestamp (str : String) : Option Timestamp :=
  match str.toList with
  | [y1, y2, y3, y4, '-', mo1, mo2, '-', d1, d2, sep, h1, h2, ':', mi1, mi2] =>
      if sep = ' ' ∨ sep = 'T' then
        mkTimestampOfDigits y1 y2 y3 y4 mo1 mo2 d1 d2 h1 h2 mi1 mi2 '0' '0'
      else none
  | [y1, y2, y3, y4, '-', mo1, mo2, '-', d1, d2, sep, h1, h2, ':', mi1, mi2, ':', s1, s2] =>
      if sep = ' ' ∨ sep = 'T' then
        mkTimestampOfDigits y1 y2 y3 y4 mo1 mo2 d1 d2 h1 h2 mi1 mi2 s1 s2
      else none
  | _ => none

/-- One raw input row: columns `Start Time` and `Time Asleep(min)`. -/
structure RawRow where
  start_time : String
  minutes_asleep : ℚ
deriving DecidableEq, Repr

/-- The caller's dataframe.  `augment_data` mutates it in place by adding
`date` and `sleep_hours` columns (sleep.py lines 58-60) before the
group-by rebinds the local name to a fresh frame; modelled by explicit
state passing of this structure. -/
structure RawFrame where
  rows : List RawRow
  dateCol : Option (List Date)
  sleepHoursCol : Option (List ℚ)
deriving DecidableEq, Repr

/-- One row of the grouped, augmented output frame. -/
structure NightRow where
  date : Date
  sleep_hours : ℚ
  sleepDelta : ℚ
  rolling14dDebt : ℚ
  color : String
  rolling7dSleep : ℚ
deriving DecidableEq, Repr

instance : Inhabited NightRow := ⟨⟨default, 0, 0, 0, "", 0⟩⟩

/-- `pd.to_datetime` over the whole column: parses elements in order and
raises at the first unparseable one, identifying its position; on error
no column is produced at all. -/
def parseAll : List String → Except ℕ (List Timestamp)
  | [] => .ok []
  | s :: rest =>
      match parseTimestamp s with
      | none => .error 0
      | some t =>
          match parseAll rest with
          | .error j => .error (j + 1)
          | .ok ts => .ok (t :: ts)

/-- Insert a (date, hours) observation into a date-sorted accumulator,
adding the hours onto an existing entry with the same date. -/
def insertGroup (d : Date) (v : ℚ) : List (Date × ℚ) → List (Date × ℚ)
  | [] => [(d, v)]
  | (d0, v0) :: rest =>
      if d = d0 then (d0, v0 + v) :: rest
      else if Date.Lt d d0 then (d, v) :: (d0, v0) :: rest
      else (d0, v0) :: insertGroup d v rest

/-- `df.groupby("date", as_index=False)["sleep_hours"].sum()`
(sleep.py line 63): one row per distinct date, values summed per date,
keys in ascending date order (pandas group-by sorts keys by default). -/
def groupSum (ps : List (Date × ℚ)) : List (Date × ℚ) :=
  ps.foldl (fun acc p => insertGroup p.1 p.2 acc) []

/-- `Series.rolling(w, min_periods=1).sum()`: at each index the sum of
the window of up to `w` trailing observations ending there. -/
def rollingSumList (w : ℕ) (xs : List ℚ) : List ℚ :=
  (List.range xs.length).map fun k => ((xs.take (k + 1)).reverse.take w).sum

/-- `Series.rolling(w, min_periods=1).mean()`: the trailing window's sum
divided by the number of observations it actually holds. -/
def rollingMeanList (w : ℕ) (xs : List ℚ) : List ℚ :=
  (List.range xs.length).map fun k =>
    ((xs.take (k + 1)).reverse.take w).sum / (((xs.take (k + 1)).reverse.take w).length : ℚ)

/-- The color marker (sleep.py lines 68-70). -/
def colorOf (x : ℚ) : String :=
  if x < TARGET_SLEEP then "lightcoral" else "lightgreen"

/-- Lines 65-71 of sleep.py applied to the grouped frame: add
`Sleep Delta`, `rolling_14d_debt`, `color`, `rolling_7d_sleep` columns
and return the rows. -/
def augmentGrouped (g : List (Date × ℚ)) : List NightRow :=
  let dates := g.map Prod.fst
  let hours := g.map Prod.snd
  let deltas := hours.map (fun x => x - TARGET_SLEEP)
  let debts := rollingSumList 14 (deltas.map Neg.neg)
  let colors := hours.map colorOf
  let means := rollingMeanList 7 hours
  (List.range g.length).map fun k =>
    { date := dates.getD k default
      sleep_hours := hours.getD k 0
      sleepDelta := deltas.getD k 0
      rolling14dDebt := debts.getD k 0
      color := colors.getD k ""
      rolling7dSleep := means.getD k 0 }

/-- `augment_data` (sleep.py lines 30-72), with the in-place column
assignments made explicit: on success returns the mutated input frame
(now carrying `date` and `sleep_hours` columns) together with the new
grouped/augmented frame; a parse failure aborts the whole call with the
offending row index and the input frame untouched. -/
def augment_data (df : RawFrame) : Except ℕ (RawFrame × List NightRow) :=
  match parseAll (df.rows.map RawRow.start_time) with
  | .error j => .error j
  | .ok ts =>
      let dates := ts.map (fun t => assign_sleep_day t 4)
      let sh := df.rows.map (fun r => r.minutes_asleep / 60)
      let df2 : RawFrame := { rows := df.rows, dateCol := some dates, sleepHoursCol := some sh }
      let g := groupSum (dates.zip sh)
      .ok (df2, augmentGrouped g)

/-- Whether `glob.glob("*." ++ extension)` matches a filename: glob `*`
never matches a leading dot (hidden files), and the rest of the pattern
requires the name to end in `"." ++ extension`. -/
def globMatch (extension name : String) : Bool :=
  !name.startsWith "." && name.endsWith ("." ++ extension)

/-- `get_file` (sleep.py lines 75-87): `glob.glob(f"*.{ extension}")[0]`.
Indexing `[0]` on the empty match list raises, so the function is
modelled as returning the first match of the directory listing when one
exists and failing (`none`) when none does. -/
def get_file (dir : List String) (extension : String) : Option String :=
  (dir.filter (fun n => globMatch extension n)).head?

/-! ### Order facts about `Date.Lt` -/

lemma Date.Lt.irrefl (a : Date) : ¬ Date.Lt a a := by
  obtain ⟨y, m, d⟩ := a
  simp [Date.Lt]

lemma Date.Lt.trans {a b c : Date} (h1 : Date.Lt a b) (h2 : Date.Lt b c) :
    Date.Lt a c := by
  obtain ⟨y1, m1, d1⟩ := a
  obtain ⟨y2, m2, d2⟩ := b
  obtain ⟨y3, m3, d3⟩ := c
  simp only [Date.Lt] at h1 h2 ⊢
  omega

lemma Date.lt_trichotomy (a b : Date) : Date.Lt a b ∨ a = b ∨ Date.Lt b a := by
  obtain ⟨y1, m1, d1⟩ := a
  obtain ⟨y2, m2, d2⟩ := b
  simp only [Date.Lt, Date.mk.injEq]
  omega

/-! ### Column parsing -/

lemma parseAll_ok_length :
    ∀ {ss : List String} {ts : List Timestamp}, parseAll ss = .ok ts →
      ts.length = ss.length := by
  intro ss
  induction ss with
  | nil =>
      intro ts h
      simp only [parseAll] at h
      cases h
      rfl
  | cons s rest ih =>
      intro ts h
      simp only [parseAll] at h
      cases hp : parseTimestamp s with
      | none => rw [hp] at h; cases h
      | some t =>
          rw [hp] at h
          cases hr : parseAll rest with
          | error j => rw [hr] at h; cases h
          | ok ts0 =>
              rw [hr] at h
              cases h
              simp [ih hr]

lemma parseAll_error_spec :
    ∀ {ss : List String} {j : ℕ}, parseAll ss = .error j →
      ∃ h : j < ss.length, parseTimestamp (ss.get ⟨j, h⟩) = none := by
  intro ss
  induction ss with
  | nil =>
      intro j h
      simp only [parseAll] at h
      cases h
  | cons s rest ih =>
      intro j h
      simp only [parseAll] at h
      cases hp : parseTimestamp s with
      | none =>
          rw [hp] at h
          cases h
          exact ⟨Nat.succ_pos _, hp⟩
      | some t =>
          rw [hp] at h
          cases hr : parseAll rest with
          | error j0 =>
              rw [hr] at h
              cases h
              obtain ⟨hj, hbad⟩ := ih hr
              exact ⟨Nat.succ_lt_succ hj, hbad⟩
          | ok ts0 => rw [hr] at h; cases h

lemma parseAll_error_of_mem :
    ∀ {ss : List String}, (∃ s ∈ ss, parseTimestamp s = none) →
      ∃ j, parseAll ss = .error j := by
  intro ss
  induction ss with
  | nil =>
      rintro ⟨s, hs, -⟩
      cases hs
  | cons s rest ih =>
      rintro ⟨s0, hs0, hbad⟩
      cases hp : parseTimestamp s with
      | none => exact ⟨0, by simp only [parseAll, hp]⟩
      | some t =>
          have hs0rest : s0 ∈ rest := by
            rcases List.mem_cons.mp hs0 with h | h
            · subst h; rw [hp] at hbad; cases hbad
            · exact h
          obtain ⟨j, hj⟩ := ih ⟨s0, hs0rest, hbad⟩
          exact ⟨j + 1, by simp only [parseAll, hp, hj]⟩

/-! ### Grouping: `insertGroup` / `groupSum` -/

/-- Total value recorded under key `x` in a (date, value) pair list. -/
def keySum (x : Date) (l : List (Date × ℚ)) : ℚ :=
  (l.map fun p => if p.1 = x then p.2 else 0).sum

lemma keySum_nil (x : Date) : keySum x [] = 0 := rfl

lemma keySum_cons (x : Date) (p : Date × ℚ) (l : List (Date × ℚ)) :
    keySum x (p :: l) = (if p.1 = x then p.2 else 0) + keySum x l := by
  simp [keySum]

lemma mem_map_fst_insertGroup {x d : Date} {v : ℚ} :
    ∀ {l : List (Date × ℚ)},
      x ∈ (insertGroup d v l).map Prod.fst ↔ x = d ∨ x ∈ l.map Prod.fst := by
  intro l
  induction l with
  | nil => simp [insertGroup]
  | cons p rest ih =>
      obtain ⟨d0, v0⟩ := p
      by_cases hd : d = d0
      · subst hd
        simp [insertGroup]
      · by_cases hlt : Date.Lt d d0
        · simp [insertGroup, hd, hlt]
        · simp [insertGroup, hd, hlt, ih]
          tauto

lemma pairwise_insertGroup {d : Date} {v : ℚ} :
    ∀ {l : List (Date × ℚ)}, ((l.map Prod.fst).Pairwise Date.Lt) →
      (((insertGroup d v l).map Prod.fst).Pairwise Date.Lt) := by
  intro l
  induction l with
  | nil =>
      intro _
      simp [insertGroup]
  | cons p rest ih =>
      obtain ⟨d0, v0⟩ := p
      intro h
      rw [List.map_cons, List.pairwise_cons] at h
      obtain ⟨h1, h2⟩ := h
      by_cases hd : d = d0
      · subst hd
        simp only [insertGroup, eq_self_iff_true, if_true, List.map_cons]
        rw [List.pairwise_cons]
        exact ⟨h1, h2⟩
      · by_cases hlt : Date.Lt d d0
        · simp only [insertGroup, if_neg hd, if_pos hlt, List.map_cons]
          rw [List.pairwise_cons]
          constructor
          · intro x hx
            rcases List.mem_cons.mp hx with h | h
            · subst h; exact hlt
            · exact Date.Lt.trans hlt (h1 x h)
          · rw [List.pairwise_cons]
            exact ⟨h1, h2⟩
        · simp only [insertGroup, if_neg hd, if_neg hlt, List.map_cons]
          rw [List.pairwise_cons]
          constructor
          · intro x hx
            rcases mem_map_fst_insertGroup.mp hx with h | h
            · subst h
              rcases Date.lt_trichotomy x d0 with h | h | h
              · exact absurd h hlt
              · exact absurd h hd
              · exact h
            · exact h1 x h
          · exact ih h2

lemma keySum_insertGroup (x d : Date) (v : ℚ) :
    ∀ (l : List (Date × ℚ)),
      keySum x (insertGroup d v l) = keySum x l + (if d = x then v else 0) := by
  intro l
  induction l with
  | nil => simp [insertGroup, keySum]
  | cons p rest ih =>
      obtain ⟨d0, v0⟩ := p
      by_cases hd : d = d0
      · subst hd
        by_cases hx : d = x
        · simp [insertGroup, keySum_cons, hx]
          ring
        · simp [insertGroup, keySum_cons, hx]
      · by_cases hlt : Date.Lt d d0
        · simp only [insertGroup, if_neg hd, if_pos hlt, keySum_cons]
          ring
        · simp only [insertGroup, if_neg hd, if_neg hlt, keySum_cons, ih]
          ring

lemma keySum_foldl (x : Date) :
    ∀ (ps acc : List (Date × ℚ)),
      keySum x (ps.foldl (fun a p => insertGroup p.1 p.2 a) acc) =
        keySum x acc + keySum x ps := by
  intro ps
  induction ps with
  | nil => intro acc; simp [keySum_nil]
  | cons p rest ih =>
      intro acc
      rw [List.foldl_cons, ih, keySum_insertGroup, keySum_cons]
      by_cases hx : p.1 = x
      · simp only [hx, if_true, eq_self_iff_true]
        ring
      · simp only [hx, if_false]
        ring

lemma keySum_groupSum (x : Date) (ps : List (Date × ℚ)) :
    keySum x (groupSum ps) = keySum x ps := by
  have h := keySum_foldl x ps []
  simpa [groupSum, keySum_nil] using h

lemma pairwise_foldl :
    ∀ (ps acc : List (Date × ℚ)), ((acc.map Prod.fst).Pairwise Date.Lt) →
      (((ps.foldl (fun a p => insertGroup p.1 p.2 a) acc).map Prod.fst).Pairwise Date.Lt) := by
  intro ps
  induction ps with
  | nil => intro acc h; simpa using h
  | cons p rest ih =>
      intro acc h
      rw [List.foldl_cons]
      exact ih _ (pairwise_insertGroup h)

lemma pairwise_groupSum (ps : List (Date × ℚ)) :
    ((groupSum ps).map Prod.fst).Pairwise Date.Lt :=
  pairwise_foldl ps [] (by simp)

lemma mem_keys_foldl (x : Date) :
    ∀ (ps acc : List (Date × ℚ)),
      (x ∈ (ps.foldl (fun a p => insertGroup p.1 p.2 a) acc).map Prod.fst ↔
        x ∈ acc.map Prod.fst ∨ x ∈ ps.map Prod.fst) := by
  intro ps
  induction ps with
  | nil => intro acc; simp
  | cons p rest ih =>
      intro acc
      rw [List.foldl_cons, ih, mem_map_fst_insertGroup]
      simp
      tauto

lemma mem_keys_groupSum (x : Date) (ps : List (Date × ℚ)) :
    x ∈ (groupSum ps).map Prod.fst ↔ x ∈ ps.map Prod.fst := by
  have h := mem_keys_foldl x ps []
  simpa [groupSum] using h

lemma nodup_keys_groupSum (ps : List (Date × ℚ)) :
    ((groupSum ps).map Prod.fst).Nodup :=
  (pairwise_groupSum ps).imp fun h => by
    intro he
    subst he
    exact Date.Lt.irrefl _ h

lemma keySum_eq_zero_of_not_mem {x : Date} :
    ∀ {l : List (Date × ℚ)}, x ∉ l.map Prod.fst → keySum x l = 0 := by
  intro l
  induction l with
  | nil => intro _; rfl
  | cons p rest ih =>
      intro h
      rw [keySum_cons]
      have hp : p.1 ≠ x := fun he => h (by simp [← he])
      rw [if_neg hp, ih (fun hm => h (by simp [hm]))]
      ring

lemma filter_key_nil {x : Date} :
    ∀ {l : List (Date × ℚ)}, x ∉ l.map Prod.fst →
      l.filter (fun p => decide (p.1 = x)) = [] := by
  intro l
  induction l with
  | nil => intro _; rfl
  | cons p rest ih =>
      intro h
      have hp : p.1 ≠ x := fun he => h (by simp [← he])
      rw [List.filter_cons]
      simp only [hp, decide_False, if_false, Bool.false_eq_true]
      exact ih (fun hm => h (by simp [hm]))

lemma length_filter_key {x : Date} :
    ∀ {l : List (Date × ℚ)}, ((l.map Prod.fst).Nodup) → x ∈ l.map Prod.fst →
      (l.filter (fun p => decide (p.1 = x))).length = 1 := by
  intro l
  induction l with
  | nil =>
      intro _ hx
      cases hx
  | cons p rest ih =>
      intro hnd hx
      rw [List.map_cons, List.nodup_cons] at hnd
      obtain ⟨hp, hnd⟩ := hnd
      rw [List.filter_cons]
      by_cases he : p.1 = x
      · subst he
        simp only [decide_True, if_true, eq_self_iff_true]
        rw [filter_key_nil hp]
        rfl
      · simp only [he, decide_False, if_false, Bool.false_eq_true]
        rw [List.map_cons] at hx
        rcases List.mem_cons.mp hx with h | h
        · exact absurd h.symm he
        · exact ih hnd h

lemma snd_eq_keySum :
    ∀ {l : List (Date × ℚ)}, ((l.map Prod.fst).Nodup) →
      ∀ {d : Date} {w : ℚ}, (d, w) ∈ l → w = keySum d l := by
  intro l
  induction l with
  | nil =>
      intro _ d w h
      cases h
  | cons p rest ih =>
      intro hnd d w h
      rw [List.map_cons, List.nodup_cons] at hnd
      obtain ⟨hp, hnd⟩ := hnd
      rcases List.mem_cons.mp h with h | h
      · rw [← h, keySum_cons]
        have : d ∉ rest.map Prod.fst := by
          rw [← h] at hp
          exact hp
        rw [keySum_eq_zero_of_not_mem this]
        simp [← h]
      · have hne : p.1 ≠ d := by
          intro he
          exact hp (he ▸ (List.mem_map.mpr ⟨(d, w), h, rfl⟩))
        rw [keySum_cons, if_neg hne, ih hnd h]
        ring

lemma keySum_eq_filter (x : Date) :
    ∀ (l : List (Date × ℚ)),
      keySum x l = ((l.filter (fun p => decide (p.1 = x))).map Prod.snd).sum := by
  intro l
  induction l with
  | nil => rfl
  | cons p rest ih =>
      rw [keySum_cons, List.filter_cons]
      by_cases he : p.1 = x
      · simp only [he, decide_True, if_true, eq_self_iff_true, List.map_cons, List.sum_cons]
        rw [ih]
      · simp only [he, decide_False, if_false, Bool.false_eq_true]
        rw [ih]
        ring

lemma sum_map_div (l : List ℚ) (c : ℚ) : (l.map fun q => q / c).sum = l.sum / c := by
  induction l with
  | nil => simp
  | cons q rest ih => simp [ih, add_div]

/-! ### Shape of the augmented rows -/

lemma length_rollingSumList (w : ℕ) (xs : List ℚ) :
    (rollingSumList w xs).length = xs.length := by
  simp [rollingSumList]

lemma length_rollingMeanList (w : ℕ) (xs : List ℚ) :
    (rollingMeanList w xs).length = xs.length := by
  simp [rollingMeanList]

lemma length_augmentGrouped (g : List (Date × ℚ)) :
    (augmentGrouped g).length = g.length := by
  simp [augmentGrouped]

lemma get_augmentGrouped (g : List (Date × ℚ)) (k : ℕ) (hg : k < g.length)
    (hk : k < (augmentGrouped g).length) :
    (augmentGrouped g).get ⟨k, hk⟩ =
      { date := (g.get ⟨k, hg⟩).1
        sleep_hours := (g.get ⟨k, hg⟩).2
        sleepDelta := (g.get ⟨k, hg⟩).2 - TARGET_SLEEP
        rolling14dDebt :=
          ((((g.map Prod.snd).map fun x => -(x - TARGET_SLEEP)).take (k + 1)).reverse.take 14).sum
        color := colorOf (g.get ⟨k, hg⟩).2
        rolling7dSleep :=
          (((g.map Prod.snd).take (k + 1)).reverse.take 7).sum /
            ((((g.map Prod.snd).take (k + 1)).reverse.take 7).length : ℚ) } := by
  simp only [augmentGrouped, rollingSumList, rollingMeanList, List.get_eq_getElem,
    List.getElem_map, List.getElem_range, List.length_range, List.length_map]
  rw [List.getD_eq_getElem _ _ (by simpa using hg), List.getD_eq_getElem _ _ (by simpa using hg),
    List.getD_eq_getElem _ _ (by simpa using hg), List.getD_eq_getElem _ _ (by simpa using hg),
    List.getD_eq_getElem _ _ (by simpa [length_rollingSumList] using hg),
    List.getD_eq_getElem _ _ (by simpa [length_rollingMeanList] using hg)]
  simp only [rollingSumList, rollingMeanList, List.getElem_map, List.getElem_range,
    List.map_map]
  rfl

lemma sum_reverse_take (l : List ℚ) (w : ℕ) :
    (l.reverse.take w).sum = (l.drop (l.length - w)).sum := by
  rw [List.take_reverse, List.sum_reverse]

lemma length_reverse_take {α : Type*} (l : List α) (w : ℕ) :
    (l.reverse.take w).length = (l.drop (l.length - w)).length := by
  rw [List.take_reverse, List.length_reverse]

lemma augmentGrouped_map_pair (g : List (Date × ℚ)) :
    (augmentGrouped g).map (fun r => (r.date, r.sleep_hours)) = g := by
  apply List.ext_getElem
  · simp [length_augmentGrouped]
  · intro n h1 h2
    have hga : n < (augmentGrouped g).length := by simpa using h1
    rw [List.getElem_map]
    rw [← List.get_eq_getElem (augmentGrouped g) ⟨n, hga⟩, get_augmentGrouped g n h2 hga]
    simp

lemma augmentGrouped_map_date (g : List (Date × ℚ)) :
    (augmentGrouped g).map NightRow.date = g.map Prod.fst := by
  have h := augmentGrouped_map_pair g
  calc (augmentGrouped g).map NightRow.date
      = ((augmentGrouped g).map (fun r => (r.date, r.sleep_hours))).map Prod.fst := by
        simp [List.map_map]
    _ = g.map Prod.fst := by rw [h]

lemma augmentGrouped_map_hours (g : List (Date × ℚ)) :
    (augmentGrouped g).map NightRow.sleep_hours = g.map Prod.snd := by
  have h := augmentGrouped_map_pair g
  calc (augmentGrouped g).map NightRow.sleep_hours
      = ((augmentGrouped g).map (fun r => (r.date, r.sleep_hours))).map Prod.snd := by
        simp [List.map_map]
    _ = g.map Prod.snd := by rw [h]

lemma mem_augmentGrouped {g : List (Date × ℚ)} {r : NightRow} (hr : r ∈ augmentGrouped g) :
    r.color = colorOf r.sleep_hours ∧ r.sleepDelta = r.sleep_hours - TARGET_SLEEP := by
  obtain ⟨n, hn, heq⟩ := List.mem_iff_getElem.mp hr
  have hg : n < g.length := by
    rw [length_augmentGrouped] at hn
    exact hn
  rw [← List.get_eq_getElem (augmentGrouped g) ⟨n, hn⟩, get_augmentGrouped g n hg hn] at heq
  rw [← heq]
  exact ⟨rfl, rfl⟩

lemma augment_data_ok {df : RawFrame} {ts : List Timestamp}
    (hp : parseAll (df.rows.map RawRow.start_time) = .ok ts) :
    augment_data df =
      .ok ({ rows := df.rows,
             dateCol := some (ts.map fun t => assign_sleep_day t 4),
             sleepHoursCol := some (df.rows.map fun r => r.minutes_asleep / 60) },
           augmentGrouped (groupSum ((ts.map fun t => assign_sleep_day t 4).zip
             (df.rows.map fun r => r.minutes_asleep / 60)))) := by
  simp only [augment_data, hp]

lemma augment_data_error {df : RawFrame} {j : ℕ}
    (hp : parseAll (df.rows.map RawRow.start_time) = .error j) :
    augment_data df = .error j := by
  simp only [augment_data, hp]

lemma augment_data_ok_inv {df df2 : RawFrame} {out : List NightRow}
    (ha : augment_data df = .ok (df2, out)) :
    ∃ ts, parseAll (df.rows.map RawRow.start_time) = .ok ts ∧
      df2 = { rows := df.rows,
              dateCol := some (ts.map fun t => assign_sleep_day t 4),
              sleepHoursCol := some (df.rows.map fun r => r.minutes_asleep / 60) } ∧
      out = augmentGrouped (groupSum ((ts.map fun t => assign_sleep_day t 4).zip
        (df.rows.map fun r => r.minutes_asleep / 60))) := by
  cases hp : parseAll (df.rows.map RawRow.start_time) with
  | error j =>
      rw [augment_data_error hp] at ha
      cases ha
  | ok ts =>
      rw [augment_data_ok hp] at ha
      refine ⟨ts, rfl, ?_, ?_⟩
      · exact (congrArg Prod.fst (Except.ok.inj ha)).symm
      · exact (congrArg Prod.snd (Except.ok.inj ha)).symm

/-! ### Claim theorems -/

/-- C1: for a valid timestamp (hour in [0,23]) and a cutoff hour in [0,23],
`assign_sleep_day` returns the previous calendar date exactly when the hour
is in `[0, cutoff_hour)`, and the timestamp's own date when the hour is in
`[cutoff_hour, 23]` — in particular an hour equal to the cutoff is not
shifted. -/
theorem assign_sleep_day_correct (t : Timestamp) (c : ℤ) (ht : t.hour ≤ 23)
    (hc0 : 0 ≤ c) (hc1 : c ≤ 23) :
    ((t.hour : ℤ) < c → assign_sleep_day t c = prevDate t.date) ∧
    (c ≤ (t.hour : ℤ) → assign_sleep_day t c = t.date) := by
  constructor
  · intro h
    unfold assign_sleep_day
    rw [if_pos ⟨Int.natCast_nonneg _, h⟩]
  · intro h
    unfold assign_sleep_day
    rw [if_neg]
    rintro ⟨-, hlt⟩
    omega

/-- Witness for C1: a 01:30 bedtime on 2024-01-02 with the default cutoff 4
is assigned to 2024-01-01, and a 04:00 bedtime (hour equal to the cutoff)
keeps its own date. -/
theorem assign_sleep_day_correct_w :
    assign_sleep_day ⟨⟨2024, 1, 2⟩, 1, 30, 0⟩ 4 = ⟨2024, 1, 1⟩ ∧
    assign_sleep_day ⟨⟨2024, 1, 1⟩, 4, 0, 0⟩ 4 = ⟨2024, 1, 1⟩ := by
  constructor
  · exact ((assign_sleep_day_correct ⟨⟨2024, 1, 2⟩, 1, 30, 0⟩ 4 (by decide) (by decide)
      (by decide)).1 (by decide)).trans (by decide)
  · exact (assign_sleep_day_correct ⟨⟨2024, 1, 1⟩, 4, 0, 0⟩ 4 (by decide) (by decide)
      (by decide)).2 (by decide)

/-- C7 counterexample: with `cutoff_hour = 24`, outside `[0, 23]`,
`assign_sleep_day` does not fail with any configuration error — the code
contains no validation — it silently produces a date (here shifting a
22:00 bedtime to the previous day, since every hour is below 24). -/
theorem assign_sleep_day_no_validation_cex :
    assign_sleep_day ⟨⟨2024, 1, 5⟩, 22, 0, 0⟩ 24 = ⟨2024, 1, 4⟩ := by
  decide

/-- C7 amended: `assign_sleep_day` performs no range validation of
`cutoff_hour`; for any valid timestamp it totally returns a date even for
cutoffs outside [0,23]: a cutoff above 23 shifts every timestamp to the
previous date and a cutoff at most 0 leaves every date unchanged. -/
theorem assign_sleep_day_out_of_range (t : Timestamp) (c : ℤ) (ht : t.hour ≤ 23) :
    (23 < c → assign_sleep_day t c = prevDate t.date) ∧
    (c ≤ 0 → assign_sleep_day t c = t.date) := by
  constructor
  · intro h
    unfold assign_sleep_day
    rw [if_pos ⟨Int.natCast_nonneg _, by omega⟩]
  · intro h
    unfold assign_sleep_day
    rw [if_neg]
    rintro ⟨h0, h1⟩
    omega

/-- Witness for the amended C7: concrete out-of-range cutoffs 30 and -5. -/
theorem assign_sleep_day_out_of_range_w :
    assign_sleep_day ⟨⟨2024, 3, 1⟩, 22, 0, 0⟩ 30 = ⟨2024, 2, 29⟩ ∧
    assign_sleep_day ⟨⟨2024, 3, 1⟩, 22, 0, 0⟩ (-5) = ⟨2024, 3, 1⟩ := by
  constructor
  · exact ((assign_sleep_day_out_of_range ⟨⟨2024, 3, 1⟩, 22, 0, 0⟩ 30 (by decide)).1
      (by decide)).trans (by decide)
  · exact (assign_sleep_day_out_of_range ⟨⟨2024, 3, 1⟩, 22, 0, 0⟩ (-5) (by decide)).2
      (by decide)

/-- C9: file discovery returns the first name in the directory listing
matching the extension pattern, returns a failure exactly when no name
matches, and anything it returns is a matching member of the listing. -/
theorem get_file_spec (dir : List String) (extension : String) :
    get_file dir extension = dir.find? (fun n => globMatch extension n) ∧
    (get_file dir extension = none ↔ ∀ n ∈ dir, globMatch extension n = false) ∧
    (∀ n, get_file dir extension = some n → n ∈ dir ∧ globMatch extension n = true) := by
  have hfind : ∀ (l : List String), (l.filter (fun n => globMatch extension n)).head? =
      l.find? (fun n => globMatch extension n) := by
    intro l
    induction l with
    | nil => rfl
    | cons a l ih =>
        by_cases h : globMatch extension a
        · simp [List.filter_cons, h]
        · simp [List.filter_cons, h, ih]
  refine ⟨hfind dir, ?_, ?_⟩
  · rw [show get_file dir extension = dir.find? (fun n => globMatch extension n) from hfind dir]
    rw [List.find?_eq_none]
    constructor
    · intro h n hn
      exact Bool.not_eq_true _ ▸ (by simpa using h n hn)
    · intro h n hn
      simp [h n hn]
  · intro n hn
    rw [show get_file dir extension = dir.find? (fun n => globMatch extension n) from hfind dir]
      at hn
    exact ⟨List.mem_of_find?_eq_some hn, by simpa using List.find?_some hn⟩

/-- C10: `augment_data` mutates its argument before aggregation — on
success the caller's frame keeps its rows but has gained a `date` column
(the assigned sleep days) and a `sleep_hours` column (minutes divided by
60), so it is no longer equal to the frame passed in; the grouped output
is a separate structure. -/
theorem augment_data_mutates_input (df df2 : RawFrame) (out : List NightRow)
    (h0 : df.dateCol = none) (h1 : df.sleepHoursCol = none)
    (ha : augment_data df = .ok (df2, out)) :
    df2.rows = df.rows ∧
    (∃ ts, parseAll (df.rows.map RawRow.start_time) = .ok ts ∧
      df2.dateCol = some (ts.map fun t => assign_sleep_day t 4)) ∧
    df2.sleepHoursCol = some (df.rows.map fun r => r.minutes_asleep / 60) ∧
    df2 ≠ df := by
  obtain ⟨ts, hp, hdf2, -⟩ := augment_data_ok_inv ha
  subst hdf2
  refine ⟨rfl, ⟨ts, hp, rfl⟩, rfl, ?_⟩
  intro he
  have hcol := congrArg RawFrame.dateCol he
  rw [h0] at hcol
  cases hcol

/-- C8: if any row's `start_time` fails to parse (in either accepted
format), the whole `augment_data` call fails, returning only an error
that identifies an offending row index — no output rows are produced. -/
theorem augment_data_fails_on_malformed (df : RawFrame)
    (h : ∃ r ∈ df.rows, parseTimestamp r.start_time = none) :
    ∃ j, augment_data df = .error j ∧
      ∃ hj : j < df.rows.length, parseTimestamp ((df.rows.get ⟨j, hj⟩).start_time) = none := by
  obtain ⟨r, hr, hbad⟩ := h
  have hmem : ∃ s ∈ df.rows.map RawRow.start_time, parseTimestamp s = none :=
    ⟨r.start_time, List.mem_map.mpr ⟨r, hr, rfl⟩, hbad⟩
  obtain ⟨j, hj⟩ := parseAll_error_of_mem hmem
  obtain ⟨hlt, hbadj⟩ := parseAll_error_spec hj
  refine ⟨j, augment_data_error hj, ⟨by simpa using hlt, ?_⟩⟩
  simpa [List.get_eq_getElem, List.getElem_map] using hbadj

/-- C6: every output row's color marker is the below-target value
`"lightcoral"` exactly when its `sleep_hours` is strictly below
`TARGET_SLEEP`, and the at-or-above value `"lightgreen"` exactly when
`sleep_hours` is at least `TARGET_SLEEP` — so hitting the target exactly
is marked at-or-above. -/
theorem status_color_spec (df df2 : RawFrame) (out : List NightRow)
    (ha : augment_data df = .ok (df2, out)) :
    ∀ r ∈ out,
      (r.color = "lightcoral" ↔ r.sleep_hours < TARGET_SLEEP) ∧
      (r.color = "lightgreen" ↔ TARGET_SLEEP ≤ r.sleep_hours) := by
  obtain ⟨ts, hp, -, hout⟩ := augment_data_ok_inv ha
  subst hout
  intro r hr
  obtain ⟨hc, -⟩ := mem_augmentGrouped hr
  rw [hc]
  unfold colorOf
  by_cases h : r.sleep_hours < TARGET_SLEEP
  · have h2 : ¬ TARGET_SLEEP ≤ r.sleep_hours := not_le.mpr h
    rw [if_pos h]
    constructor
    · simp [h]
    · constructor
      · intro hs
        exact absurd hs (by decide)
      · intro hs
        exact absurd hs h2
  · have h2 : TARGET_SLEEP ≤ r.sleep_hours := not_lt.mp h
    rw [if_neg h]
    constructor
    · constructor
      · intro hs
        exact absurd hs (by decide)
      · intro hs
        exact absurd hs h
    · simp [h2]

/-- C3: in the augmented output, `rolling_14d_debt` at row `k` is the sum
of `-(sleep_hours - TARGET_SLEEP)` over the trailing `min(14, k+1)` rows
ending at row `k` (the actual rows, no zero padding); at the first row
it is `-(sleep_hours₀ - TARGET_SLEEP)`. -/
theorem rolling_14d_debt_spec (df df2 : RawFrame) (out : List NightRow) (k : ℕ)
    (ha : augment_data df = .ok (df2, out)) (hk : k < out.length) :
    (out.get ⟨k, hk⟩).rolling14dDebt =
      (((out.map fun r => -(r.sleep_hours - TARGET_SLEEP)).take (k + 1)).drop (k + 1 - 14)).sum ∧
    (k = 0 → (out.get ⟨k, hk⟩).rolling14dDebt =
      -((out.get ⟨k, hk⟩).sleep_hours - TARGET_SLEEP)) := by
  obtain ⟨ts, hp, -, hout⟩ := augment_data_ok_inv ha
  have hg : k < (groupSum ((ts.map fun t => assign_sleep_day t 4).zip
      (df.rows.map fun r => r.minutes_asleep / 60))).length := by
    rw [hout, length_augmentGrouped] at hk
    exact hk
  have hmaps : (out.map fun r => -(r.sleep_hours - TARGET_SLEEP)) =
      ((out.map NightRow.sleep_hours).map fun x => -(x - TARGET_SLEEP)) := by
    rw [List.map_map]
    rfl
  have h1 : (out.get ⟨k, hk⟩).rolling14dDebt =
      (((out.map fun r => -(r.sleep_hours - TARGET_SLEEP)).take (k + 1)).drop
        (k + 1 - 14)).sum := by
    subst hout
    rw [get_augmentGrouped _ k hg hk, hmaps, augmentGrouped_map_hours]
    show ((((List.map Prod.snd _).map fun x => -(x - TARGET_SLEEP)).take
      (k + 1)).reverse.take 14).sum = _
    rw [sum_reverse_take]
    congr 1
    rw [List.length_take, List.length_map, List.length_map]
    congr 1
    have hlen : k + 1 ≤ (groupSum ((ts.map fun t => assign_sleep_day t 4).zip
        (df.rows.map fun r => r.minutes_asleep / 60))).length := hg
    omega
  refine ⟨h1, ?_⟩
  intro hk0
  subst hk0
  rw [h1]
  have h0 : (0 : ℕ) + 1 - 14 = 0 := by norm_num
  rw [h0, List.drop_zero]
  cases out with
  | nil => cases hk
  | cons r rest =>
      simp

/-- C4: in the augmented output, `rolling_7d_sleep` at row `k` is the
arithmetic mean of `sleep_hours` over the trailing `min(7, k+1)` rows
ending at row `k`; at the first row it is that row's own `sleep_hours`,
and for `k < 7` it is the mean of rows `0..k`. -/
theorem rolling_7d_sleep_spec (df df2 : RawFrame) (out : List NightRow) (k : ℕ)
    (ha : augment_data df = .ok (df2, out)) (hk : k < out.length) :
    ((out.get ⟨k, hk⟩).rolling7dSleep =
      (((out.map NightRow.sleep_hours).take (k + 1)).drop (k + 1 - 7)).sum /
        (((((out.map NightRow.sleep_hours).take (k + 1)).drop (k + 1 - 7)).length : ℚ))) ∧
    ((((out.map NightRow.sleep_hours).take (k + 1)).drop (k + 1 - 7)).length = min 7 (k + 1)) ∧
    (k = 0 → (out.get ⟨k, hk⟩).rolling7dSleep = (out.get ⟨k, hk⟩).sleep_hours) ∧
    (k < 7 → (out.get ⟨k, hk⟩).rolling7dSleep =
      ((out.map NightRow.sleep_hours).take (k + 1)).sum / ((k + 1 : ℕ) : ℚ)) := by
  obtain ⟨ts, hp, -, hout⟩ := augment_data_ok_inv ha
  have hg : k < (groupSum ((ts.map fun t => assign_sleep_day t 4).zip
      (df.rows.map fun r => r.minutes_asleep / 60))).length := by
    rw [hout, length_augmentGrouped] at hk
    exact hk
  have hlen1 : (out.map NightRow.sleep_hours).length = out.length := List.length_map _ _
  have htake : ((out.map NightRow.sleep_hours).take (k + 1)).length = k + 1 := by
    rw [List.length_take, hlen1]
    omega
  have h1 : (out.get ⟨k, hk⟩).rolling7dSleep =
      (((out.map NightRow.sleep_hours).take (k + 1)).drop (k + 1 - 7)).sum /
        (((((out.map NightRow.sleep_hours).take (k + 1)).drop (k + 1 - 7)).length : ℚ)) := by
    subst hout
    rw [get_augmentGrouped _ k hg hk, augmentGrouped_map_hours]
    show (((List.map Prod.snd _).take (k + 1)).reverse.take 7).sum /
      ((((List.map Prod.snd _).take (k + 1)).reverse.take 7).length : ℚ) = _
    rw [sum_reverse_take, length_reverse_take]
    have he : ((List.map Prod.snd (groupSum ((ts.map fun t => assign_sleep_day t 4).zip
        (df.rows.map fun r => r.minutes_asleep / 60)))).take (k + 1)).length = k + 1 := by
      rw [List.length_take, List.length_map]
      omega
    rw [he]
  have h2 : ((((out.map NightRow.sleep_hours).take (k + 1)).drop (k + 1 - 7)).length =
      min 7 (k + 1)) := by
    rw [List.length_drop, htake]
    omega
  refine ⟨h1, h2, ?_, ?_⟩
  · intro hk0
    subst hk0
    rw [h1]
    have h0 : (0 : ℕ) + 1 - 7 = 0 := by norm_num
    rw [h0, List.drop_zero]
    cases out with
    | nil => cases hk
    | cons r rest =>
        simp
  · intro hk7
    rw [h1]
    have h0 : k + 1 - 7 = 0 := by omega
    rw [h0, List.drop_zero, htake]

lemma keySum_map_div (d : Date) (c : ℚ) :
    ∀ (l : List (Date × ℚ)),
      keySum d (l.map (Prod.map id (fun q => q / c))) = keySum d l / c := by
  intro l
  induction l with
  | nil => simp [keySum]
  | cons p rest ih =>
      rw [List.map_cons, keySum_cons, keySum_cons, ih, add_div]
      congr 1
      by_cases h : p.1 = d
      · simp [h, Prod.map_fst, Prod.map_snd]
      · simp [h, Prod.map_fst]

/-- C5: the augmented output has exactly one record per distinct assigned
sleep-night date — its date column is strictly ascending, duplicate-free,
and each date assigned to some input row is carried by exactly one output
row. -/
theorem augment_output_sorted_unique (df df2 : RawFrame) (out : List NightRow)
    (ts : List Timestamp)
    (hp : parseAll (df.rows.map RawRow.start_time) = .ok ts)
    (ha : augment_data df = .ok (df2, out)) :
    ((out.map NightRow.date).Pairwise Date.Lt) ∧
    ((out.map NightRow.date).Nodup) ∧
    ∀ d, d ∈ (ts.map fun t => assign_sleep_day t 4) →
      (out.filter (fun r => decide (r.date = d))).length = 1 := by
  obtain ⟨ts0, hp0, -, hout⟩ := augment_data_ok_inv ha
  rw [hp0] at hp
  have hts : ts0 = ts := Except.ok.inj hp
  rw [hts] at hp0 hout
  have hlents : ts.length = df.rows.length := by
    have := parseAll_ok_length hp0
    simpa using this
  have hlenz : (ts.map fun t => assign_sleep_day t 4).length ≤
      (df.rows.map fun r => r.minutes_asleep / 60).length := by
    simp [hlents]
  have hkeys : ((ts.map fun t => assign_sleep_day t 4).zip
      (df.rows.map fun r => r.minutes_asleep / 60)).map Prod.fst =
      (ts.map fun t => assign_sleep_day t 4) :=
    List.map_fst_zip _ _ hlenz
  subst hout
  rw [augmentGrouped_map_date]
  refine ⟨pairwise_groupSum _, nodup_keys_groupSum _, ?_⟩
  intro d hd
  have hdg : d ∈ (groupSum ((ts.map fun t => assign_sleep_day t 4).zip
      (df.rows.map fun r => r.minutes_asleep / 60))).map Prod.fst := by
    rw [mem_keys_groupSum, hkeys]
    exact hd
  have h1 : ((groupSum ((ts.map fun t => assign_sleep_day t 4).zip
      (df.rows.map fun r => r.minutes_asleep / 60))).filter
        (fun p => decide (p.1 = d))).length = 1 :=
    length_filter_key (nodup_keys_groupSum _) hdg
  rw [← List.countP_eq_length_filter] at h1 ⊢
  rw [← augmentGrouped_map_pair (groupSum ((ts.map fun t => assign_sleep_day t 4).zip
    (df.rows.map fun r => r.minutes_asleep / 60))), List.countP_map] at h1
  exact h1

/-- C2: records sharing an assigned sleep-night date are merged by the
augmenter into the single output row for that date, whose `sleep_hours`
is the sum of those records' `minutes_asleep` divided by 60 (a lone
record therefore contributes exactly `minutes_asleep / 60`). -/
theorem augment_groups_sum (df df2 : RawFrame) (out : List NightRow)
    (ts : List Timestamp)
    (hp : parseAll (df.rows.map RawRow.start_time) = .ok ts)
    (ha : augment_data df = .ok (df2, out))
    (d : Date) (hd : d ∈ (ts.map fun t => assign_sleep_day t 4)) :
    (out.filter (fun r => decide (r.date = d))).length = 1 ∧
    ∀ r ∈ out, r.date = d →
      r.sleep_hours =
        ((((ts.map fun t => assign_sleep_day t 4).zip
          (df.rows.map RawRow.minutes_asleep)).filter
            (fun p => decide (p.1 = d))).map Prod.snd).sum / 60 := by
  obtain ⟨h1, h2, h3⟩ := augment_output_sorted_unique df df2 out ts hp ha
  refine ⟨h3 d hd, ?_⟩
  obtain ⟨ts0, hp0, -, hout⟩ := augment_data_ok_inv ha
  rw [hp0] at hp
  have hts : ts0 = ts := Except.ok.inj hp
  rw [hts] at hp0 hout
  intro r hr hrd
  have hpairmem : (r.date, r.sleep_hours) ∈ groupSum ((ts.map fun t => assign_sleep_day t 4).zip
      (df.rows.map fun q => q.minutes_asleep / 60)) := by
    rw [← augmentGrouped_map_pair (groupSum ((ts.map fun t => assign_sleep_day t 4).zip
      (df.rows.map fun q => q.minutes_asleep / 60)))]
    rw [← hout]
    exact List.mem_map.mpr ⟨r, hr, rfl⟩
  rw [hrd] at hpairmem
  have hval : r.sleep_hours = keySum d (groupSum ((ts.map fun t => assign_sleep_day t 4).zip
      (df.rows.map fun q => q.minutes_asleep / 60))) :=
    snd_eq_keySum (nodup_keys_groupSum _) hpairmem
  rw [keySum_groupSum] at hval
  have hmapdiv : (df.rows.map fun q => q.minutes_asleep / 60) =
      (df.rows.map RawRow.minutes_asleep).map (fun q => q / 60) := by
    rw [List.map_map]
    rfl
  rw [hmapdiv, List.zip_map_right, keySum_map_div, keySum_eq_filter] at hval
  exact hval

/-! ### Concrete witness data: the spec's worked example plus a
2024-01-05 night, and a frame with one malformed row. -/

def sampleRows : List RawRow :=
  [⟨"2024-01-05 22:00:00", 480⟩, ⟨"2024-01-02 01:30:00", 120⟩, ⟨"2024-01-01 23:00:00", 300⟩]

def sampleFrame : RawFrame := ⟨sampleRows, none, none⟩

def sampleTs : List Timestamp :=
  [⟨⟨2024, 1, 5⟩, 22, 0, 0⟩, ⟨⟨2024, 1, 2⟩, 1, 30, 0⟩, ⟨⟨2024, 1, 1⟩, 23, 0, 0⟩]

def sampleFrame2 : RawFrame :=
  ⟨sampleRows, some [⟨2024, 1, 5⟩, ⟨2024, 1, 1⟩, ⟨2024, 1, 1⟩], some [8, 2, 5]⟩

def row0 : NightRow := ⟨⟨2024, 1, 1⟩, 7, -1, 1, "lightcoral", 7⟩

def row1 : NightRow := ⟨⟨2024, 1, 5⟩, 8, 0, 1, "lightgreen", 15 / 2⟩

def sampleOut : List NightRow := [row0, row1]

def badFrame : RawFrame := ⟨[⟨"2024-01-05 22:00:00", 480⟩, ⟨"not a timestamp", 10⟩], none, none⟩

lemma sample_parse : parseAll (sampleFrame.rows.map RawRow.start_time) = .ok sampleTs := by
  rfl

lemma sample_augment : augment_data sampleFrame = .ok (sampleFrame2, sampleOut) := by
  rw [augment_data_ok sample_parse]
  norm_num [sampleFrame, sampleRows, sampleFrame2, sampleTs, sampleOut, row0, row1,
    assign_sleep_day, prevDate, groupSum, insertGroup, augmentGrouped, rollingSumList,
    rollingMeanList, colorOf, TARGET_SLEEP, Date.Lt, List.range_succ]

/-- Witness for C2 at the merged 2024-01-01 night (sessions of 120 and
300 minutes): one output row, `sleep_hours = (120 + 300)/60 = 7`. -/
theorem augment_groups_sum_w :
    (sampleOut.filter (fun r => decide (r.date = ⟨2024, 1, 1⟩))).length = 1 ∧
    row0.sleep_hours =
      ((((sampleTs.map fun t => assign_sleep_day t 4).zip
        (sampleFrame.rows.map RawRow.minutes_asleep)).filter
          (fun p => decide (p.1 = ⟨2024, 1, 1⟩))).map Prod.snd).sum / 60 := by
  have h := augment_groups_sum sampleFrame sampleFrame2 sampleOut sampleTs sample_parse
    sample_augment ⟨2024, 1, 1⟩ (by decide)
  exact ⟨h.1, h.2 row0 (by simp [sampleOut]) rfl⟩

/-- Witness for C3 at the first output row: debt `1 = -(7 - 8)`. -/
theorem rolling_14d_debt_spec_w :
    row0.rolling14dDebt = -(row0.sleep_hours - TARGET_SLEEP) :=
  (rolling_14d_debt_spec sampleFrame sampleFrame2 sampleOut 0 sample_augment (by decide)).2 rfl

/-- Witness for C4: the first row's rolling mean is its own hours, and the
second row's (k = 1 < 7) is the mean of the first two rows. -/
theorem rolling_7d_sleep_spec_w :
    row0.rolling7dSleep = row0.sleep_hours ∧
    row1.rolling7dSleep = ((sampleOut.map NightRow.sleep_hours).take 2).sum / ((2 : ℕ) : ℚ) := by
  constructor
  · exact (rolling_7d_sleep_spec sampleFrame sampleFrame2 sampleOut 0 sample_augment
      (by decide)).2.2.1 rfl
  · exact (rolling_7d_sleep_spec sampleFrame sampleFrame2 sampleOut 1 sample_augment
      (by decide)).2.2.2 (by decide)

/-- Witness for C5 on the two-night sample output. -/
theorem augment_output_sorted_unique_w :
    ((sampleOut.map NightRow.date).Pairwise Date.Lt) ∧
    ((sampleOut.map NightRow.date).Nodup) ∧
    (sampleOut.filter (fun r => decide (r.date = ⟨2024, 1, 5⟩))).length = 1 := by
  have h := augment_output_sorted_unique sampleFrame sampleFrame2 sampleOut sampleTs
    sample_parse sample_augment
  exact ⟨h.1, h.2.1, h.2.2 ⟨2024, 1, 5⟩ (by decide)⟩

/-- Witness for C6 at the row that exactly meets the target (8 hours):
marked at-or-above. -/
theorem status_color_spec_w :
    (row1.color = "lightcoral" ↔ row1.sleep_hours < TARGET_SLEEP) ∧
    (row1.color = "lightgreen" ↔ TARGET_SLEEP ≤ row1.sleep_hours) :=
  status_color_spec sampleFrame sampleFrame2 sampleOut sample_augment row1 (by simp [sampleOut])

/-- Witness for C8: the frame with an unparseable second row makes the
whole augmentation fail with that row's index, producing no rows. -/
theorem augment_data_fails_on_malformed_w :
    augment_data badFrame = .error 1 := by
  obtain ⟨j, hj, -⟩ := augment_data_fails_on_malformed badFrame
    ⟨⟨"not a timestamp", 10⟩, by simp [badFrame], rfl⟩
  have heq : (Except.error j : Except ℕ (RawFrame × List NightRow)) = .error 1 :=
    hj.symm.trans (by rfl)
  injection heq with h
  rw [← h]
  exact hj

/-- Witness for C10: after augmenting the sample frame, the caller's frame
has kept its rows, gained the two columns, and is no longer the frame that
was passed in. -/
theorem augment_data_mutates_input_w :
    sampleFrame2.rows = sampleFrame.rows ∧
    sampleFrame2.sleepHoursCol = some (sampleFrame.rows.map fun r => r.minutes_asleep / 60) ∧
    sampleFrame2 ≠ sampleFrame := by
  have h := augment_data_mutates_input sampleFrame sampleFrame2 sampleOut rfl rfl sample_augment
  exact ⟨h.1, h.2.2.1, h.2.2.2⟩

end SleepAnalyzer
